import Mathlib

/-!
Verification of the LanGallery-lite core services.

A shallow embedding of the gallery index service (`backend/app/gallery_service.py`)
and the thumbnail service (`backend/app/thumb_service.py`), together with proofs
of the specified properties.

Filesystem paths are modelled as lists of path components; the filesystem itself
is modelled by predicates (`isFile`, `isDir`) supplied by the environment.
File modification times (floats in the source) are modelled as rationals, and
Python machine integers as `Int`.
-/

namespace LanGallery

/-! ## Generic helpers -/

/-- Python's `max(x :: xs, key=...)`: fold keeping the current maximum, replacing
it only when the candidate's key is strictly greater (so ties keep the first
element, as CPython does). -/
def pyMax {α : Type} (lt : α → α → Bool) (x : α) (xs : List α) : α :=
  xs.foldl (fun best e => if lt best e then e else best) x

/-- Strip characters matching `p` from both ends of a character list
(Python's `str.strip`). -/
def stripEnds (p : Char → Bool) (s : List Char) : List Char :=
  ((s.dropWhile p).reverse.dropWhile p).reverse

/-- Split a character list on a separator character; like Python's `str.split`,
the empty string yields one empty field and separators at the ends yield empty
fields. -/
def splitOnChar (sep : Char) : List Char → List (List Char)
  | [] => [[]]
  | c :: rest =>
      let r := splitOnChar sep rest
      if c = sep then [] :: r
      else
        match r with
        | [] => [[c]]
        | g :: gs => (c :: g) :: gs

/-- `rel_path.replace("\\", "/")`: single-character replacement. -/
def backslashToSlash (s : String) : String :=
  String.mk (s.toList.map (fun c => if c = '\\' then '/' else c))

def splitSlash (s : String) : List String :=
  (splitOnChar '/' s.toList).map String.mk

/-- `"/".join`, the inverse of `splitSlash` used by `as_posix()`. -/
def joinSlash : List String → String
  | [] => ""
  | p :: rest => rest.foldl (fun acc q => acc ++ "/" ++ q) p

def lowerString (s : String) : String :=
  String.mk (s.toList.map Char.toLower)

def startsWithSlash (s : String) : Bool :=
  match s.toList with
  | [] => false
  | c :: _ => c = '/'

/-- Lexicographic comparison of character lists by code point, Python's string
`<` (a structural equivalent of `List.lt`). -/
def charListLt : List Char → List Char → Bool
  | _, [] => false
  | [], _ :: _ => true
  | a :: as, b :: bs => decide (a < b) || (decide (a = b) && charListLt as bs)

/-- Python string `<`. -/
def strLt (a b : String) : Bool :=
  charListLt a.toList b.toList

/-! ## Path model

An absolute path is a list of components (the parts after the leading `/`).
`resolveComponents` performs the lexical part of `Path.resolve()`: `""` and `"."`
components are dropped, `".."` removes the previous component (the parent of the
filesystem root is the root itself), and ordinary components are appended.
Symlinks are not modelled. -/

def resolveStep (acc : List String) (c : String) : List String :=
  if c = "" ∨ c = "." then acc
  else if c = ".." then acc.dropLast
  else acc ++ [c]

def resolveComponents (comps : List String) : List String :=
  comps.foldl resolveStep []

/-- A path is in resolved form when it has no empty, `"."` or `".."` components.
`main.py` resolves the gallery root at startup, so the configured root has this
property. -/
def resolvedForm (p : List String) : Prop :=
  ∀ c ∈ p, c ≠ "" ∧ c ≠ "." ∧ c ≠ ".."

instance (p : List String) : Decidable (resolvedForm p) := by
  unfold resolvedForm; infer_instance

/-! ## `Path.suffix` and `_is_supported_image` -/

/-- The extension of a file name: the characters after the last `'.'`, provided
that dot is neither the first nor the last character (Python's `Path.suffix`
followed by `lstrip(".")`, which strips the single leading dot). -/
def pyExtension (name : String) : String :=
  let rev := name.toList.reverse
  let after := rev.takeWhile (fun c => c ≠ '.')
  match rev.dropWhile (fun c => c ≠ '.') with
  | [] => ""
  | _ :: pre => if pre = [] ∨ after = [] then "" else String.mk after.reverse

/-- The last component of a path, Python's `Path(...).name` for the paths the
services build. -/
def lastComponent (p : List String) : String :=
  (p.getLast?).getD ""

/-- `_is_supported_image`: the lowercased extension is nonempty and belongs to
the configured set. The final component of the path carries the file name. -/
def is_supported_image (candidate : List String) (extensions : List String) : Bool :=
  let suffix := lowerString (pyExtension (lastComponent candidate))
  (suffix != "") && extensions.contains suffix

/-! ## Gallery data model -/

structure GalleryImage where
  id : String
  name : String
  rel_path : String
  mtime : ℚ
  size : Int
  url : String
  thumb_url : String
deriving DecidableEq

structure GalleryFolderCover where
  id : String
  name : String
  rel_dir : String
  cover : GalleryImage
  image_count : Nat
  latest_mtime : ℚ
deriving DecidableEq

structure GalleryIndexSnapshot where
  folders_ordered : List GalleryFolderCover
  images_by_folder : List (String × List GalleryImage)
  images_ordered : List GalleryImage
deriving DecidableEq

structure FolderCoverPage where
  items : List GalleryFolderCover
  total : Int
  page : Int
  page_size : Int
  total_pages : Int
deriving DecidableEq

structure GalleryFolderImages where
  rel_dir : String
  name : String
  items : List GalleryImage
deriving DecidableEq

/-- A scanner record: the file's `st_mtime` paired with the constructed image. -/
abbrev ScanEntry := ℚ × GalleryImage

/-- `_image_dir`: the posix parent directory of a relative path, `"."` for
root-level files. -/
def image_dir (rel_path : String) : String :=
  let comps := (splitSlash rel_path).filter (fun c => ¬ (c = "" ∨ c = "."))
  if comps.length ≤ 1 then "." else joinSlash comps.dropLast

/-- `_folder_display_name`. -/
def folder_display_name (rel_dir : String) : String :=
  if rel_dir = "." then "根目录"
  else ((((splitSlash rel_dir).filter (fun c => c ≠ "")).getLast?).getD "")

/-! ## Snapshot builder (`_build_snapshot`)

`groups.setdefault(rel_dir, []).append(entry)` over an insertion-ordered dict is
modelled by an association list: a new key is appended at the end, an existing
key has the entry appended to its bucket. -/

def insertEntry (gs : List (String × List ScanEntry)) (k : String) (e : ScanEntry) :
    List (String × List ScanEntry) :=
  match gs with
  | [] => [(k, [e])]
  | (k0, es) :: rest =>
      if k0 = k then (k0, es ++ [e]) :: rest else (k0, es) :: insertEntry rest k e

def groupByFolder (records : List ScanEntry) : List (String × List ScanEntry) :=
  records.foldl (fun gs e => insertEntry gs (image_dir e.2.rel_path) e) []

/-- Comparison used by `max(entries, key=lambda item: (item[1].name, item[1].rel_path))`:
strict lexicographic order on the (name, rel_path) pair. -/
def coverLt (a b : ScanEntry) : Bool :=
  strLt a.2.name b.2.name || (decide (a.2.name = b.2.name) && strLt a.2.rel_path b.2.rel_path)

/-- Comparison used by `max(entries, key=lambda item: item[0])`. -/
def mtimeLt (a b : ScanEntry) : Bool :=
  decide (a.1 < b.1)

/-- One folder of the snapshot, built from a nonempty group of entries, paired
with the numeric latest mtime used as the sort key. -/
def folderEntry (rel_dir : String) (e : ScanEntry) (rest : List ScanEntry) :
    ℚ × GalleryFolderCover :=
  let latest := pyMax mtimeLt e rest
  let cover := (pyMax coverLt e rest).2
  (latest.1,
   { id := rel_dir
     name := folder_display_name rel_dir
     rel_dir := rel_dir
     cover := cover
     image_count := (e :: rest).length
     latest_mtime := latest.2.mtime })

/-- `folders.sort(key=lambda item: (-item[0], item[1].rel_dir))`: ascending
lexicographic comparison of the `(-latest_mtime, rel_dir)` key. Python's sort is
a stable sort on this key; it is modelled by a stable insertion sort. -/
def folderSortRel (a b : ℚ × GalleryFolderCover) : Prop :=
  -a.1 < -b.1 ∨ (-a.1 = -b.1 ∧ a.2.rel_dir ≤ b.2.rel_dir)

instance : DecidableRel folderSortRel := fun a b => by
  unfold folderSortRel; infer_instance

/-- The unsorted `folders` list of `_build_snapshot`, one keyed entry per
group. -/
def snapshotFolderList (records : List ScanEntry) : List (ℚ × GalleryFolderCover) :=
  (groupByFolder records).filterMap (fun g =>
    match g.2 with
    | [] => none
    | e :: rest => some (folderEntry g.1 e rest))

def build_snapshot (records : List ScanEntry) : GalleryIndexSnapshot :=
  { folders_ordered :=
      (List.insertionSort folderSortRel (snapshotFolderList records)).map (fun p => p.2)
    images_by_folder := (groupByFolder records).map (fun g => (g.1, g.2.map (fun e => e.2)))
    images_ordered := records.map (fun e => e.2) }

/-! ## Path resolvers -/

/-- The two error kinds of the path layer: `InvalidMediaPathError` /
`InvalidFolderPathError` surface as `invalidPath`, `FileNotFoundError` as
`notFound`. -/
inductive PathError where
  | invalidPath
  | notFound
deriving DecidableEq

structure MediaConfig where
  root : List String
  isFile : List String → Bool
  extensions : List String

/-- The resolved absolute form of `(gallery_dir / Path(normalized)).resolve()`.
A normalized path starting with `/` is absolute and replaces the root when
joined, exactly as `pathlib` does. -/
def mediaCandidate (root : List String) (rel_path : String) : List String :=
  let normalized := backslashToSlash rel_path
  let comps := splitSlash normalized
  resolveComponents (if startsWithSlash normalized then comps else root ++ comps)

/-- `resolve_media_path`. `candidate.relative_to(root)` succeeds exactly when
the root's components are a prefix of the candidate's. -/
def resolve_media_path (cfg : MediaConfig) (rel_path : String) :
    Except PathError (List String) :=
  let candidate := mediaCandidate cfg.root rel_path
  if (candidate.take cfg.root.length) = cfg.root then
    if cfg.isFile candidate then
      if is_supported_image candidate cfg.extensions then .ok candidate
      else .error .notFound
    else .error .notFound
  else .error .invalidPath

structure FolderConfig where
  root : List String
  isDir : List String → Bool

/-- The normalization step of `resolve_folder_path`: replace backslashes, strip
whitespace, strip slashes, map `""` and `"."` to `"."`. -/
def folderNormalized (rel_dir : String) : String :=
  let replaced := backslashToSlash rel_dir
  let stripped :=
    String.mk (stripEnds (fun c => c = '/') (stripEnds Char.isWhitespace replaced.toList))
  if stripped = "" ∨ stripped = "." then "." else stripped

def folderCandidate (cfg : FolderConfig) (rel_dir : String) : List String :=
  resolveComponents (cfg.root ++ splitSlash (folderNormalized rel_dir))

/-- The canonical root-relative name `resolve_folder_path` returns on success. -/
def folderResolvedName (cfg : FolderConfig) (rel_dir : String) : String :=
  let resolved := joinSlash ((folderCandidate cfg rel_dir).drop cfg.root.length)
  if resolved = "" ∨ resolved = "." then "." else resolved

def resolve_folder_path (cfg : FolderConfig) (rel_dir : String) : Except PathError String :=
  let candidate := folderCandidate cfg rel_dir
  if (candidate.take cfg.root.length) = cfg.root then
    if cfg.isDir candidate then .ok (folderResolvedName cfg rel_dir)
    else .error .notFound
  else .error .invalidPath

/-- `GalleryIndexService.list_folder_images` with the snapshot the service would
serve: resolve the folder, look it up in the folder→images map, fail with
`notFound` when there are no entries. -/
def list_folder_images (cfg : FolderConfig) (snapshot : GalleryIndexSnapshot)
    (rel_dir : String) : Except PathError GalleryFolderImages :=
  match resolve_folder_path cfg rel_dir with
  | .error e => .error e
  | .ok resolved =>
      let items := ((snapshot.images_by_folder.lookup resolved).getD [])
      if items = [] then .error .notFound
      else .ok { rel_dir := resolved, name := folder_display_name resolved, items := items }

/-! ## Pagination (`list_folder_covers`) -/

/-- Pagination over a snapshot, shared by the module-level `list_folder_covers`
and the service method (both run the same checks and slicing after obtaining a
snapshot). `//` on the positive operands reached here agrees with `Int.fdiv`. -/
def list_folder_covers (snapshot : GalleryIndexSnapshot) (page page_size : Int) :
    Except String FolderCoverPage :=
  if page < 1 then .error "Page must be at least 1."
  else if page_size < 1 then .error "Page size must be at least 1."
  else
    let total : Int := snapshot.folders_ordered.length
    let total_pages : Int := if total ≠ 0 then Int.fdiv (total + page_size - 1) page_size else 0
    let start := (page - 1) * page_size
    let items :=
      if start < total then (snapshot.folders_ordered.drop start.toNat).take page_size.toNat
      else []
    .ok { items := items, total := total, page := page, page_size := page_size,
          total_pages := total_pages }

/-! ## Gallery index cache state machine -/

structure GalleryIndexState where
  snapshot : GalleryIndexSnapshot
  initialized : Bool
  building : Bool
  last_built_at : Option ℚ
  last_built_monotonic : Option ℚ
deriving DecidableEq

/-- The shared `finally` block of `_build_worker` and `_build_sync`: the local
`snapshot` variable is still `none` when `_build_snapshot` raised; publication
happens only when it was assigned, and `building` is cleared unconditionally. -/
def build_finalize (st : GalleryIndexState) (attempt : Option GalleryIndexSnapshot)
    (wall mono : ℚ) : GalleryIndexState :=
  let st1 :=
    match attempt with
    | some snap =>
        { st with snapshot := snap, initialized := true,
                  last_built_at := some wall, last_built_monotonic := some mono }
    | none => st
  { st1 with building := false }

/-- `_build_worker` run to completion on a build attempt (`none` = the build
raised). -/
def build_worker (st : GalleryIndexState) (attempt : Option GalleryIndexSnapshot)
    (wall mono : ℚ) : GalleryIndexState :=
  build_finalize st attempt wall mono

/-- `_build_sync` run to completion: wait, enter the building state, build,
finalize; the second component is the outcome propagated to the caller
(`none` = the exception is re-raised). -/
def build_sync (st : GalleryIndexState) (attempt : Option GalleryIndexSnapshot)
    (wall mono : ℚ) : GalleryIndexState × Option GalleryIndexSnapshot :=
  (build_finalize { st with building := true } attempt wall mono, attempt)

/-- `_is_expired_locked` at monotonic time `now`. -/
def is_expired (st : GalleryIndexState) (now ttl : ℚ) : Bool :=
  if st.initialized = false then true
  else
    match st.last_built_monotonic with
    | none => true
    | some t => decide (ttl ≤ now - t)

/-- `_trigger_background_build`, restricted to the caller's own effects: the
spawned thread is modelled separately by `build_worker`. The boolean reports
whether a thread was started. -/
def trigger_background_build (st : GalleryIndexState) (force : Bool) (now ttl : ℚ) :
    GalleryIndexState × Bool :=
  if st.building then (st, false)
  else if ¬ force ∧ ¬ (is_expired st now ttl = true) then (st, false)
  else ({ st with building := true }, true)

/-- `_ensure_snapshot`: the caller-visible state transition and the served
snapshot (`none` = a synchronous build raised and the exception propagates). -/
def ensure_snapshot (st : GalleryIndexState) (refresh : Bool)
    (attempt : Option GalleryIndexSnapshot) (wall now ttl : ℚ) :
    GalleryIndexState × Option GalleryIndexSnapshot :=
  if refresh then
    let r := build_sync st attempt wall now
    (r.1, match r.2 with | some _ => some r.1.snapshot | none => none)
  else if st.initialized = false then
    let r := build_sync st attempt wall now
    (r.1, match r.2 with | some _ => some r.1.snapshot | none => none)
  else if is_expired st now ttl then
    ((trigger_background_build st true now ttl).1, some st.snapshot)
  else (st, some st.snapshot)

/-! ## Thumbnail service (`thumb_service.py`)

The cache key is `sha256(f"{rel_path}|{size}|{quality}|{source_size}|{source_mtime_ns}")`.
Decimal rendering of Python integers and SHA-256 (FIPS 180-4) are embedded
below; 32-bit words are `Nat` reduced by `% 2 ^ 32`. -/

def decDigitChar : Nat → Char
  | 0 => '0' | 1 => '1' | 2 => '2' | 3 => '3' | 4 => '4'
  | 5 => '5' | 6 => '6' | 7 => '7' | 8 => '8' | 9 => '9'
  | _ => '?'

/-- Decimal rendering of a natural number, most significant digit first
(Python's `str` on a nonnegative `int`). -/
def decimalRepr (n : Nat) : List Char :=
  if n = 0 then ['0'] else ((Nat.digits 10 n).map decDigitChar).reverse

/-- Decimal rendering of a Python `int`, with a leading `'-'` when negative. -/
def intRepr (n : Int) : List Char :=
  if n < 0 then '-' :: decimalRepr (-n).toNat else decimalRepr n.toNat

/-- The hashed payload of `_build_cache_key`, before UTF-8 encoding. -/
def cache_key_payload (rel_path : String) (size quality source_size source_mtime_ns : Int) :
    List Char :=
  rel_path.toList
    ++ '|' :: intRepr size
    ++ '|' :: intRepr quality
    ++ '|' :: intRepr source_size
    ++ '|' :: intRepr source_mtime_ns

/-- UTF-8 encoding of one scalar value (RFC 3629), `str.encode("utf-8")`. -/
def utf8Bytes (c : Char) : List Nat :=
  let n := c.toNat
  if n < 128 then [n]
  else if n < 2048 then [192 + n / 64, 128 + n % 64]
  else if n < 65536 then [224 + n / 4096, 128 + n / 64 % 64, 128 + n % 64]
  else [240 + n / 262144, 128 + n / 4096 % 64, 128 + n / 64 % 64, 128 + n % 64]

def utf8Encode (s : List Char) : List Nat :=
  s.flatMap utf8Bytes

def w32 (x : Nat) : Nat := x % 4294967296

def rotr (n x : Nat) : Nat := w32 ((x >>> n) ||| (x <<< (32 - n)))

/-- The SHA-256 round constants. -/
def sha256K : List Nat :=
  [1116352408, 1899447441, 3049323471, 3921009573, 961987163,
   1508970993, 2453635748, 2870763221, 3624381080, 310598401,
   607225278, 1426881987, 1925078388, 2162078206, 2614888103,
   3248222580, 3835390401, 4022224774, 264347078, 604807628,
   770255983, 1249150122, 1555081692, 1996064986, 2554220882,
   2821834349, 2952996808, 3210313671, 3336571891, 3584528711,
   113926993, 338241895, 666307205, 773529912, 1294757372,
   1396182291, 1695183700, 1986661051, 2177026350, 2456956037,
   2730485921, 2820302411, 3259730800, 3345764771, 3516065817,
   3600352804, 4094571909, 275423344, 430227734, 506948616,
   659060556, 883997877, 958139571, 1322822218, 1537002063,
   1747873779, 1955562222, 2024104815, 2227730452, 2361852424,
   2428436474, 2756734187, 3204031479, 3329325298]

def sha256Init : List Nat :=
  [1779033703, 3144134277, 1013904242, 2773480762,
   1359893119, 2600822924, 528734635, 1541459225]

/-- Big-endian word from bytes. -/
def beWord (bs : List Nat) : Nat :=
  bs.foldl (fun acc b => acc * 256 + b) 0

/-- The 64-bit big-endian length field of the padding. -/
def lenBytes (bits : Nat) : List Nat :=
  [bits / 2 ^ 56 % 256, bits / 2 ^ 48 % 256, bits / 2 ^ 40 % 256, bits / 2 ^ 32 % 256,
   bits / 2 ^ 24 % 256, bits / 2 ^ 16 % 256, bits / 2 ^ 8 % 256, bits % 256]

/-- Append `0x80`, zero padding to 56 mod 64, and the message bit length. -/
def sha256Pad (msg : List Nat) : List Nat :=
  let l := msg.length
  let k := (119 - l % 64) % 64
  msg ++ 128 :: List.replicate k 0 ++ lenBytes (8 * l)

def chunks64 : List Nat → List (List Nat)
  | [] => []
  | b :: rest => (b :: rest).take 64 :: chunks64 ((b :: rest).drop 64)
termination_by l => l.length
decreasing_by simp [List.length_drop]; omega

/-- The 64-entry message schedule of a block. -/
def sha256Schedule (block : List Nat) : List Nat :=
  let w0 := (List.range 16).map (fun i => beWord ((block.drop (4 * i)).take 4))
  (List.range 48).foldl
    (fun w _ =>
      let a := w.getD (w.length - 15) 0
      let b := w.getD (w.length - 2) 0
      let s0 := rotr 7 a ^^^ rotr 18 a ^^^ (a >>> 3)
      let s1 := rotr 17 b ^^^ rotr 19 b ^^^ (b >>> 10)
      w ++ [w32 (w.getD (w.length - 16) 0 + s0 + w.getD (w.length - 7) 0 + s1)])
    w0

/-- One round of the compression function on the eight working variables. -/
def sha256Round (ws : List Nat) (s : List Nat) (t : Nat) : List Nat :=
  match s with
  | [a, b, c, d, e, f, g, h] =>
      let s1 := rotr 6 e ^^^ rotr 11 e ^^^ rotr 25 e
      let ch := (e &&& f) ^^^ ((e ^^^ 4294967295) &&& g)
      let t1 := w32 (h + s1 + ch + sha256K.getD t 0 + ws.getD t 0)
      let s0 := rotr 2 a ^^^ rotr 13 a ^^^ rotr 22 a
      let mj := (a &&& b) ^^^ (a &&& c) ^^^ (b &&& c)
      [w32 (t1 + w32 (s0 + mj)), a, b, c, w32 (d + t1), e, f, g]
  | other => other

def sha256Compress (hs : List Nat) (block : List Nat) : List Nat :=
  let ws := sha256Schedule block
  let final := (List.range 64).foldl (sha256Round ws) hs
  List.zipWith (fun h v => w32 (h + v)) hs final

/-- The eight 32-bit hash words of a byte message. -/
def sha256Words (msg : List Nat) : List Nat :=
  (chunks64 (sha256Pad msg)).foldl sha256Compress sha256Init

def hexDigitChar : Nat → Char
  | 0 => '0' | 1 => '1' | 2 => '2' | 3 => '3' | 4 => '4' | 5 => '5' | 6 => '6' | 7 => '7'
  | 8 => '8' | 9 => '9' | 10 => 'a' | 11 => 'b' | 12 => 'c' | 13 => 'd' | 14 => 'e' | _ => 'f'

/-- Eight lowercase hex digits of a 32-bit word. -/
def hex8 (x : Nat) : List Char :=
  [hexDigitChar (x / 16 ^ 7 % 16), hexDigitChar (x / 16 ^ 6 % 16), hexDigitChar (x / 16 ^ 5 % 16),
   hexDigitChar (x / 16 ^ 4 % 16), hexDigitChar (x / 16 ^ 3 % 16), hexDigitChar (x / 16 ^ 2 % 16),
   hexDigitChar (x / 16 % 16), hexDigitChar (x % 16)]

/-- `hashlib.sha256(payload).hexdigest()`. -/
def sha256Hex (msg : List Nat) : String :=
  String.mk ((sha256Words msg).flatMap hex8)

/-- `ThumbnailService._build_cache_key`. -/
def build_cache_key (rel_path : String) (size quality source_size source_mtime_ns : Int) :
    String :=
  sha256Hex (utf8Encode (cache_key_payload rel_path size quality source_size source_mtime_ns))

/-- `self._cache_dir / cache_key[:2] / f"{cache_key}.jpg"`. -/
def thumbCachePath (cache_dir : String) (cache_key : String) : String :=
  cache_dir ++ "/" ++ String.mk (cache_key.toList.take 2) ++ "/" ++ cache_key ++ ".jpg"

structure ThumbnailService where
  cache_dir : String
  default_size : Int
  quality : Int

/-- One `ensure_thumbnail` call's interaction with the environment:
`statResult = none` models `source_path.stat()` raising `OSError`;
`mkdirOk = false` models `cache_path.parent.mkdir` raising `OSError`;
`pipelineOk = false` models the guarded decode/convert/resize/save/rename
block raising `OSError`, `UnidentifiedImageError` or `ValueError`. -/
structure ThumbRequest where
  rel_path : String
  sizeArg : Option Int
  statResult : Option (Int × Int)
  cacheExists : Bool
  mkdirOk : Bool
  pipelineOk : Bool

/-- The outcome of `ensure_thumbnail`: a returned path, a raised
`ThumbnailBuildError`, or a raised (uncaught) `OSError`. -/
inductive ThumbOutcome where
  | ok (path : String)
  | thumbnailBuildError
  | osError
deriving DecidableEq

/-- `ThumbnailService.ensure_thumbnail`. The `stat` call and the `mkdir` call
sit outside the `try` block, so their failures propagate as plain `OSError`. -/
def ensure_thumbnail (svc : ThumbnailService) (r : ThumbRequest) : ThumbOutcome :=
  let target_size := r.sizeArg.getD svc.default_size
  if target_size < 1 then .thumbnailBuildError
  else
    match r.statResult with
    | none => .osError
    | some (st_size, st_mtime_ns) =>
        let cache_key := build_cache_key r.rel_path target_size svc.quality st_size st_mtime_ns
        let cache_path := thumbCachePath svc.cache_dir cache_key
        if r.cacheExists then .ok cache_path
        else if r.mkdirOk = false then .osError
        else if r.pipelineOk = false then .thumbnailBuildError
        else .ok cache_path

/-! # Theorems -/

/-! ## C4: a failed build leaves the cache state intact and clears `building` -/

/-- C4: for every cache state, if the build step raises (the local `snapshot`
variable is still `none` in the `finally` block), then after `_build_worker`
or `_build_sync` completes the stored snapshot, the initialized flag and both
last-build timestamps are unchanged, and the `building` flag is `false`, so
later builds are not blocked; a synchronous build also re-raises the error. -/
theorem C4_build_failure_preserves_state :
    ∀ (st : GalleryIndexState) (wall mono : ℚ),
      ((build_worker st none wall mono).snapshot = st.snapshot
        ∧ (build_worker st none wall mono).initialized = st.initialized
        ∧ (build_worker st none wall mono).last_built_at = st.last_built_at
        ∧ (build_worker st none wall mono).last_built_monotonic = st.last_built_monotonic
        ∧ (build_worker st none wall mono).building = false)
      ∧ ((build_sync st none wall mono).1.snapshot = st.snapshot
        ∧ (build_sync st none wall mono).1.initialized = st.initialized
        ∧ (build_sync st none wall mono).1.last_built_at = st.last_built_at
        ∧ (build_sync st none wall mono).1.last_built_monotonic = st.last_built_monotonic
        ∧ (build_sync st none wall mono).1.building = false
        ∧ (build_sync st none wall mono).2 = none) := by
  intro st wall mono
  simp [build_worker, build_sync, build_finalize]

/-! ## C5: an expired snapshot is served stale; only `building` is touched -/

/-- C5: for every initialized cache state whose snapshot age on the monotonic
clock is at least the TTL, `_ensure_snapshot` without `refresh` serves the
currently stored (stale) snapshot and, on the calling path itself, changes no
state field other than setting the `building` flag for the background rebuild. -/
theorem C5_expired_serves_stale_snapshot :
    ∀ (st : GalleryIndexState) (attempt : Option GalleryIndexSnapshot) (wall now ttl t : ℚ),
      st.initialized = true →
      st.last_built_monotonic = some t →
      ttl ≤ now - t →
      (ensure_snapshot st false attempt wall now ttl).2 = some st.snapshot
      ∧ (ensure_snapshot st false attempt wall now ttl).1.snapshot = st.snapshot
      ∧ (ensure_snapshot st false attempt wall now ttl).1.initialized = st.initialized
      ∧ (ensure_snapshot st false attempt wall now ttl).1.last_built_at = st.last_built_at
      ∧ (ensure_snapshot st false attempt wall now ttl).1.last_built_monotonic
          = st.last_built_monotonic
      ∧ (ensure_snapshot st false attempt wall now ttl).1.building = true := by
  intro st attempt wall now ttl t hinit hmono httl
  have hexp : is_expired st now ttl = true := by
    simp [is_expired, hinit, hmono, httl]
  simp only [ensure_snapshot, if_neg (Bool.false_ne_true), hinit, hexp]
  simp [trigger_background_build]
  rcases hb : st.building with _ | _ <;> simp [hb, hinit]

/-- Witness for C5 at a concrete expired state. -/
theorem C5_expired_serves_stale_snapshot_witness :
    (ensure_snapshot ⟨⟨[], [], []⟩, true, false, some 5, some 10⟩ false none 0 100 60).2
      = some (⟨[], [], []⟩ : GalleryIndexSnapshot)
    ∧ (ensure_snapshot ⟨⟨[], [], []⟩, true, false, some 5, some 10⟩ false none 0 100 60).1.building
      = true :=
  ⟨(C5_expired_serves_stale_snapshot ⟨⟨[], [], []⟩, true, false, some 5, some 10⟩
      none 0 100 60 10 rfl rfl (by norm_num)).1,
   (C5_expired_serves_stale_snapshot ⟨⟨[], [], []⟩, true, false, some 5, some 10⟩
      none 0 100 60 10 rfl rfl (by norm_num)).2.2.2.2.2⟩

/-! ## C10: pagination never fails on in-range arguments -/

/-- For `t ≥ 1` and `p ≥ 1`, the Python expression `(t + p - 1) // p` is the
ceiling of `t / p`. -/
theorem fdiv_add_pred_eq_ceil (t p : Int) (ht : 1 ≤ t) (hp : 1 ≤ p) :
    Int.fdiv (t + p - 1) p = ⌈(t : ℚ) / (p : ℚ)⌉ := by
  rw [Int.fdiv_eq_ediv _ (by omega)]
  symm
  rw [Int.ceil_eq_iff]
  have hdiv := Int.ediv_add_emod (t + p - 1) p
  have hr0 : 0 ≤ (t + p - 1) % p := Int.emod_nonneg _ (by omega)
  have hrp : (t + p - 1) % p < p := Int.emod_lt_of_pos _ (by omega)
  have hp0 : (0 : ℚ) < (p : ℚ) := by exact_mod_cast (by omega : (0 : Int) < p)
  constructor
  · rw [sub_lt_iff_lt_add]
    rw [show ((t : ℚ) / p + 1) = ((t : ℚ) + p) / p by field_simp]
    rw [lt_div_iff₀ hp0]
    have key : ((t + p - 1) / p) * p < t + p := by nlinarith [hdiv, hr0]
    exact_mod_cast key
  · rw [div_le_iff₀ hp0]
    have key : t ≤ ((t + p - 1) / p) * p := by nlinarith [hdiv, hrp]
    exact_mod_cast key

/-- C10: for every snapshot and every `page ≥ 1`, `page_size ≥ 1`,
`list_folder_covers` succeeds; when `(page-1)*page_size` is at least the folder
count the items list is empty rather than an error; `total` is the snapshot's
folder count and `total_pages` is `⌈total / page_size⌉`, which is `0` when
`total = 0`. -/
theorem C10_list_folder_covers_total_pages :
    ∀ (snapshot : GalleryIndexSnapshot) (page page_size : Int),
      1 ≤ page → 1 ≤ page_size →
      ∃ result, list_folder_covers snapshot page page_size = .ok result
        ∧ result.total = (snapshot.folders_ordered.length : Int)
        ∧ ((snapshot.folders_ordered.length : Int) ≤ (page - 1) * page_size →
            result.items = [])
        ∧ result.total_pages = ⌈(snapshot.folders_ordered.length : ℚ) / (page_size : ℚ)⌉
        ∧ (snapshot.folders_ordered.length = 0 → result.total_pages = 0) := by
  intro snapshot page page_size hp hs
  rw [list_folder_covers, if_neg (by omega), if_neg (by omega)]
  refine ⟨_, rfl, rfl, ?_, ?_, ?_⟩
  · intro h
    simp only [if_neg (by omega : ¬ ((page - 1) * page_size
      < (snapshot.folders_ordered.length : Int)))]
  · by_cases htot : (snapshot.folders_ordered.length : Int) = 0
    · have hn : snapshot.folders_ordered.length = 0 := by exact_mod_cast htot
      simp [hn]
    · rw [if_pos htot]
      exact fdiv_add_pred_eq_ceil _ _ (by omega) hs
  · intro h0
    simp [h0]

/-- Witness for C10 on a concrete snapshot and page arguments. -/
theorem C10_list_folder_covers_total_pages_witness :
    ∃ result, list_folder_covers ⟨[], [], []⟩ 2 3 = .ok result
      ∧ result.total = ((([] : List GalleryFolderCover).length : Int))
      ∧ (((([] : List GalleryFolderCover).length : Int)) ≤ (2 - 1) * 3 → result.items = [])
      ∧ result.total_pages = ⌈((([] : List GalleryFolderCover).length : Int) : ℚ) / ((3 : Int) : ℚ)⌉
      ∧ (([] : List GalleryFolderCover).length = 0 → result.total_pages = 0) :=
  C10_list_folder_covers_total_pages ⟨[], [], []⟩ 2 3 (by norm_num) (by norm_num)

/-! ## C1: `resolve_media_path` -/

theorem foldl_resolveStep_of_resolved (p : List String) (h : resolvedForm p) :
    ∀ acc, List.foldl resolveStep acc p = acc ++ p := by
  induction p with
  | nil => simp
  | cons c rest ih =>
      intro acc
      obtain ⟨h1, h2, h3⟩ := h c (by simp)
      have hrest : resolvedForm rest := fun x hx => h x (by simp [hx])
      simp only [List.foldl_cons]
      rw [show resolveStep acc c = acc ++ [c] by simp [resolveStep, h1, h2, h3]]
      rw [ih hrest (acc ++ [c])]
      simp

theorem resolveComponents_append_of_resolved (root rest : List String)
    (h : resolvedForm root) :
    resolveComponents (root ++ rest) = List.foldl resolveStep root rest := by
  rw [resolveComponents, List.foldl_append, foldl_resolveStep_of_resolved root h []]
  rfl

theorem take_eq_root_iff (root cand : List String) :
    cand.take root.length = root ↔ root <+: cand := by
  rw [List.prefix_iff_eq_take]
  constructor <;> intro h <;> exact h.symm

/-- C1: paths whose resolved absolute form is not equal to or nested under the
resolved root fail with `InvalidPath`; paths inside the root fail with
`NotFound` when they do not name an existing file or their extension is not
allowed; otherwise the resolved absolute path is returned and it is always
within the root. In particular `"../secret.jpg"` escapes every root that is
nonempty and not itself named `secret.jpg`, and fails with `InvalidPath`. -/
theorem C1_resolve_media_path_contract :
    ∀ (cfg : MediaConfig), resolvedForm cfg.root →
      (∀ rel_path : String,
          ¬ cfg.root <+: mediaCandidate cfg.root rel_path →
          resolve_media_path cfg rel_path = .error .invalidPath)
      ∧ (∀ rel_path : String,
          cfg.root <+: mediaCandidate cfg.root rel_path →
          (cfg.isFile (mediaCandidate cfg.root rel_path) = false
            ∨ is_supported_image (mediaCandidate cfg.root rel_path) cfg.extensions = false) →
          resolve_media_path cfg rel_path = .error .notFound)
      ∧ (∀ (rel_path : String) (p : List String),
          resolve_media_path cfg rel_path = .ok p →
          p = mediaCandidate cfg.root rel_path ∧ cfg.root <+: p)
      ∧ (cfg.root ≠ [] → cfg.root.getLast? ≠ some "secret.jpg" →
          resolve_media_path cfg "../secret.jpg" = .error .invalidPath) := by
  intro cfg hroot
  have parta : ∀ rel_path : String,
      ¬ cfg.root <+: mediaCandidate cfg.root rel_path →
      resolve_media_path cfg rel_path = .error .invalidPath := by
    intro rel hnp
    rw [resolve_media_path, if_neg (fun hc => hnp ((take_eq_root_iff _ _).mp hc))]
  refine ⟨parta, ?_, ?_, ?_⟩
  · intro rel hp hor
    rw [resolve_media_path, if_pos ((take_eq_root_iff _ _).mpr hp)]
    rcases hor with hf | hsup
    · rw [if_neg (by simp [hf])]
    · cases hfile : cfg.isFile (mediaCandidate cfg.root rel) <;> simp [hsup]
  · intro rel p hok
    rw [resolve_media_path] at hok
    split_ifs at hok with h1 h2 h3
    · injection hok with hok
      exact ⟨hok.symm, (take_eq_root_iff _ _).mp h1 |>.trans (hok ▸ List.prefix_refl _) ⟩
  · intro hne hlast
    apply parta
    have hc : mediaCandidate cfg.root "../secret.jpg"
        = cfg.root.dropLast ++ ["secret.jpg"] := by
      rw [show mediaCandidate cfg.root "../secret.jpg"
            = resolveComponents (cfg.root ++ ["..", "secret.jpg"]) from rfl]
      rw [resolveComponents_append_of_resolved _ _ hroot]
      simp [resolveStep]
    rw [hc]
    intro hp
    have hlen : (cfg.root.dropLast ++ ["secret.jpg"]).length = cfg.root.length := by
      have : 0 < cfg.root.length := List.length_pos.mpr hne
      simp [List.length_dropLast]
      omega
    have heq : cfg.root = cfg.root.dropLast ++ ["secret.jpg"] := by
      have ht := List.prefix_iff_eq_take.mp hp
      rw [← hlen, List.take_length] at ht
      exact ht
    exact hlast (heq ▸ List.getLast?_concat _)

/-- Witness for C1: a concrete root rejects the classic traversal input. -/
theorem C1_resolve_media_path_contract_witness :
    resolve_media_path
        ⟨["data", "photos"], fun p => decide (p = ["data", "photos", "cat.jpg"]), ["jpg"]⟩
        "../secret.jpg"
      = .error .invalidPath :=
  (C1_resolve_media_path_contract
      ⟨["data", "photos"], fun p => decide (p = ["data", "photos", "cat.jpg"]), ["jpg"]⟩
      (by decide)).2.2.2 (by decide) (by decide)

/-! ## C8: missing folders and imageless folders fail identically -/

/-- C8: for any folder argument that resolves inside the root, whenever the
snapshot's folder→images map has no entries for the resolved directory,
`list_folder_images` fails with `NotFound` — whether or not the directory
exists on disk, so both cases surface as the same error kind. -/
theorem C8_list_folder_images_not_found :
    ∀ (cfg : FolderConfig) (snapshot : GalleryIndexSnapshot) (rel_dir : String),
      (folderCandidate cfg rel_dir).take cfg.root.length = cfg.root →
      ((snapshot.images_by_folder.lookup (folderResolvedName cfg rel_dir)).getD []) = [] →
      list_folder_images cfg snapshot rel_dir = .error .notFound := by
  intro cfg snapshot rel_dir hin hempty
  have hres : resolve_folder_path cfg rel_dir
      = (if cfg.isDir (folderCandidate cfg rel_dir)
          then Except.ok (folderResolvedName cfg rel_dir)
          else Except.error PathError.notFound) := by
    rw [resolve_folder_path, if_pos hin]
  cases hdir : cfg.isDir (folderCandidate cfg rel_dir)
  · simp [list_folder_images, hres, hdir]
  · simp [list_folder_images, hres, hdir, hempty]

/-- Witness for C8: a directory that exists but has no image entries and a
directory that does not exist fail with the same error. -/
theorem C8_list_folder_images_not_found_witness :
    list_folder_images ⟨["r"], fun _ => true⟩ ⟨[], [], []⟩ "missing" = .error .notFound
    ∧ list_folder_images ⟨["r"], fun _ => false⟩ ⟨[], [], []⟩ "missing" = .error .notFound :=
  ⟨C8_list_folder_images_not_found ⟨["r"], fun _ => true⟩ ⟨[], [], []⟩ "missing"
      (by decide) (by decide),
   C8_list_folder_images_not_found ⟨["r"], fun _ => false⟩ ⟨[], [], []⟩ "missing"
      (by decide) (by decide)⟩

/-! ## C6: error kinds of `ensure_thumbnail` -/

/-- C6 counterexample: a source `stat` failure — an I/O failure while reading
the source — surfaces as an uncaught `OSError`, not as `ThumbnailBuildError`,
because `source_path.stat()` runs before the `try` block. -/
theorem C6_stat_failure_is_os_error :
    ensure_thumbnail ⟨"/cache", 360, 82⟩
        { rel_path := "a.jpg", sizeArg := none, statResult := none,
          cacheExists := false, mkdirOk := true, pipelineOk := true }
      = .osError
    ∧ ThumbOutcome.osError ≠ ThumbOutcome.thumbnailBuildError := by
  exact ⟨rfl, by decide⟩

/-- C6 (amended): `ensure_thumbnail` raises `ThumbnailBuildError` exactly when
the resolved size is < 1 or the guarded decode/convert/resize/encode/rename
block fails; I/O failures of the initial source `stat` or of creating the cache
shard directory propagate as plain `OSError` (both sit outside the `try`);
otherwise a cache path is returned. -/
theorem C6_ensure_thumbnail_error_kinds :
    ∀ (svc : ThumbnailService) (r : ThumbRequest),
      (ensure_thumbnail svc r = .thumbnailBuildError ↔
        (r.sizeArg.getD svc.default_size < 1
          ∨ (1 ≤ r.sizeArg.getD svc.default_size ∧ r.statResult ≠ none
              ∧ r.cacheExists = false ∧ r.mkdirOk = true ∧ r.pipelineOk = false)))
      ∧ (ensure_thumbnail svc r = .osError ↔
          (1 ≤ r.sizeArg.getD svc.default_size
            ∧ (r.statResult = none
                ∨ (r.statResult ≠ none ∧ r.cacheExists = false ∧ r.mkdirOk = false))))
      ∧ ((∃ pth, ensure_thumbnail svc r = .ok pth) ↔
          (1 ≤ r.sizeArg.getD svc.default_size ∧ r.statResult ≠ none
            ∧ (r.cacheExists = true ∨ (r.mkdirOk = true ∧ r.pipelineOk = true)))) := by
  intro svc r
  obtain ⟨rel, sz, st, ce, mk, pl⟩ := r
  by_cases ht : sz.getD svc.default_size < 1 <;>
    rcases st with _ | ⟨ss, mt⟩ <;> cases ce <;> cases mk <;> cases pl <;>
      simp [ensure_thumbnail, ht] <;> omega

/-! ## C7: fingerprint payload injectivity and cache layout -/

theorem decDigitChar_ne_bar_dash (d : Nat) :
    decDigitChar d ≠ '|' ∧ decDigitChar d ≠ '-' := by
  unfold decDigitChar
  split <;> exact ⟨by decide, by decide⟩

theorem decDigitChar_inj (d1 d2 : Nat) (h1 : d1 < 10) (h2 : d2 < 10)
    (h : decDigitChar d1 = decDigitChar d2) : d1 = d2 := by
  interval_cases d1 <;> interval_cases d2 <;> first | rfl | (exact absurd h (by decide))

theorem hexDigitChar_mem_hex (n : Nat) : hexDigitChar n ∈ "0123456789abcdef".toList := by
  unfold hexDigitChar
  split <;> decide

theorem bar_not_mem_decimalRepr (n : Nat) : '|' ∉ decimalRepr n := by
  intro hc
  unfold decimalRepr at hc
  split at hc
  · simp at hc
  · rw [List.mem_reverse] at hc
    obtain ⟨d, _, hd⟩ := List.mem_map.mp hc
    exact (decDigitChar_ne_bar_dash d).1 hd

theorem dash_not_mem_decimalRepr (n : Nat) : '-' ∉ decimalRepr n := by
  intro hc
  unfold decimalRepr at hc
  split at hc
  · simp at hc
  · rw [List.mem_reverse] at hc
    obtain ⟨d, _, hd⟩ := List.mem_map.mp hc
    exact (decDigitChar_ne_bar_dash d).2 hd

theorem map_decDigitChar_inj :
    ∀ (l1 l2 : List Nat), (∀ d ∈ l1, d < 10) → (∀ d ∈ l2, d < 10) →
      l1.map decDigitChar = l2.map decDigitChar → l1 = l2 := by
  intro l1
  induction l1 with
  | nil =>
      intro l2 _ _ h
      cases l2 with
      | nil => rfl
      | cons d ds => simp at h
  | cons d ds ih =>
      intro l2 hb1 hb2 h
      cases l2 with
      | nil => simp at h
      | cons e es =>
          simp only [List.map_cons, List.cons.injEq] at h
          have hd := decDigitChar_inj d e (hb1 d (by simp)) (hb2 e (by simp)) h.1
          have ht := ih es (fun x hx => hb1 x (by simp [hx])) (fun x hx => hb2 x (by simp [hx])) h.2
          rw [hd, ht]

theorem digits_eq_zero_of_repr (n : Nat) (hn : n ≠ 0)
    (h : (Nat.digits 10 n).map decDigitChar = ['0']) : False := by
  rcases hdig : Nat.digits 10 n with _ | ⟨d, ds⟩
  · rw [hdig] at h; simp at h
  · rw [hdig] at h
    simp only [List.map_cons, List.cons.injEq, List.map_eq_nil_iff] at h
    have hd10 : d < 10 := Nat.digits_lt_base (by norm_num) (by rw [hdig]; simp)
    have hd0 : d = 0 := decDigitChar_inj d 0 hd10 (by norm_num) (by simpa using h.1)
    have := Nat.ofDigits_digits 10 n
    rw [hdig, h.2, hd0] at this
    simp [Nat.ofDigits] at this
    exact hn this.symm

theorem decimalRepr_inj (m n : Nat) (h : decimalRepr m = decimalRepr n) : m = n := by
  unfold decimalRepr at h
  by_cases hm : m = 0 <;> by_cases hn : n = 0
  · rw [hm, hn]
  · rw [if_pos hm, if_neg hn] at h
    have h2 : (Nat.digits 10 n).map decDigitChar = ['0'] := by
      have := congrArg List.reverse h
      simpa using this.symm
    exact absurd (digits_eq_zero_of_repr n hn h2) not_false
  · rw [if_neg hm, if_pos hn] at h
    have h2 : (Nat.digits 10 m).map decDigitChar = ['0'] := by
      have := congrArg List.reverse h
      simpa using this
    exact absurd (digits_eq_zero_of_repr m hm h2) not_false
  · rw [if_neg hm, if_neg hn] at h
    have h2 : (Nat.digits 10 m).map decDigitChar = (Nat.digits 10 n).map decDigitChar := by
      have := congrArg List.reverse h
      simpa using this
    have h3 := map_decDigitChar_inj _ _
      (fun d hd => Nat.digits_lt_base (by norm_num) hd)
      (fun d hd => Nat.digits_lt_base (by norm_num) hd) h2
    have h4 := congrArg (Nat.ofDigits 10) h3
    rwa [Nat.ofDigits_digits, Nat.ofDigits_digits] at h4

theorem bar_not_mem_intRepr (n : Int) : '|' ∉ intRepr n := by
  intro hc
  unfold intRepr at hc
  split at hc
  · simp only [List.mem_cons] at hc
    rcases hc with hc | hc
    · exact absurd hc (by decide)
    · exact bar_not_mem_decimalRepr _ hc
  · exact bar_not_mem_decimalRepr _ hc

theorem intRepr_inj (a b : Int) (h : intRepr a = intRepr b) : a = b := by
  unfold intRepr at h
  by_cases ha : a < 0 <;> by_cases hb : b < 0
  · rw [if_pos ha, if_pos hb] at h
    simp only [List.cons.injEq, true_and] at h
    have := decimalRepr_inj _ _ h
    omega
  · rw [if_pos ha, if_neg hb] at h
    have : '-' ∈ decimalRepr b.toNat := by rw [← h]; simp
    exact absurd this (dash_not_mem_decimalRepr _)
  · rw [if_neg ha, if_pos hb] at h
    have : '-' ∈ decimalRepr a.toNat := by rw [h]; simp
    exact absurd this (dash_not_mem_decimalRepr _)
  · rw [if_neg ha, if_neg hb] at h
    have := decimalRepr_inj _ _ h
    omega

theorem append_bar_inj :
    ∀ (xs xs2 ys ys2 : List Char), '|' ∉ xs → '|' ∉ xs2 →
      xs ++ '|' :: ys = xs2 ++ '|' :: ys2 → xs = xs2 ∧ ys = ys2 := by
  intro xs
  induction xs with
  | nil =>
      intro xs2 ys ys2 _ h2 h
      cases xs2 with
      | nil => simpa using h
      | cons c cs =>
          simp only [List.nil_append, List.cons_append, List.cons.injEq] at h
          exact absurd (h.1 ▸ List.mem_cons_self c cs) h2
  | cons c cs ih =>
      intro xs2 ys ys2 h1 h2 h
      cases xs2 with
      | nil =>
          simp only [List.cons_append, List.nil_append, List.cons.injEq] at h
          exact absurd (h.1.symm ▸ List.mem_cons_self c cs) h1
      | cons d ds =>
          simp only [List.cons_append, List.cons.injEq] at h
          obtain ⟨hcs, hys⟩ := ih ds ys ys2
            (fun hm => h1 (List.mem_cons_of_mem c hm))
            (fun hm => h2 (List.mem_cons_of_mem d hm)) h.2
          exact ⟨by rw [h.1, hcs], hys⟩

theorem sha256Round_length (ws s : List Nat) (t : Nat) (hlen : s.length = 8) :
    (sha256Round ws s t).length = 8 := by
  rcases s with _ | ⟨a, _ | ⟨b, _ | ⟨c, _ | ⟨d, _ | ⟨e, _ | ⟨f, _ | ⟨g, _ | ⟨h0, _ | ⟨x, xs⟩⟩⟩⟩⟩⟩⟩⟩⟩ <;>
    simp_all [sha256Round]

theorem foldl_sha256Round_length (l : List Nat) (ws s : List Nat) (hlen : s.length = 8) :
    (l.foldl (sha256Round ws) s).length = 8 := by
  induction l generalizing s with
  | nil => exact hlen
  | cons t ts ih => exact ih _ (sha256Round_length ws s t hlen)

theorem sha256Compress_length (hs block : List Nat) (hlen : hs.length = 8) :
    (sha256Compress hs block).length = 8 := by
  rw [sha256Compress, List.length_zipWith, foldl_sha256Round_length _ _ _ hlen, hlen]
  rfl

theorem foldl_sha256Compress_length :
    ∀ (blocks : List (List Nat)) (hs : List Nat), hs.length = 8 →
      (blocks.foldl sha256Compress hs).length = 8 := by
  intro blocks
  induction blocks with
  | nil => intro hs h; exact h
  | cons b bs ih => intro hs h; exact ih _ (sha256Compress_length hs b h)

theorem sha256Words_length (msg : List Nat) : (sha256Words msg).length = 8 :=
  foldl_sha256Compress_length _ _ rfl

theorem flatMap_hex8_length (l : List Nat) : (l.flatMap hex8).length = 8 * l.length := by
  induction l with
  | nil => rfl
  | cons x xs ih =>
      rw [List.flatMap_cons, List.length_append, ih, List.length_cons]
      rw [show (hex8 x).length = 8 from rfl]
      ring

theorem sha256Hex_length (msg : List Nat) : (sha256Hex msg).length = 64 := by
  rw [show (sha256Hex msg).length = ((sha256Words msg).flatMap hex8).length from rfl]
  rw [flatMap_hex8_length, sha256Words_length]

theorem mem_hex8_hex (x : Nat) : ∀ c ∈ hex8 x, c ∈ "0123456789abcdef".toList := by
  intro c hc
  simp only [hex8, List.mem_cons, List.not_mem_nil, or_false] at hc
  rcases hc with rfl | rfl | rfl | rfl | rfl | rfl | rfl | rfl <;> exact hexDigitChar_mem_hex _

theorem mem_sha256Hex_hex (msg : List Nat) :
    ∀ c ∈ (sha256Hex msg).toList, c ∈ "0123456789abcdef".toList := by
  intro c hc
  rw [show (sha256Hex msg).toList = (sha256Words msg).flatMap hex8 from rfl] at hc
  obtain ⟨x, _, hx⟩ := List.mem_flatMap.mp hc
  exact mem_hex8_hex x c hx

/-- C7: for a fixed `(rel_path, size, quality)`, any change of the source's byte
size or nanosecond mtime changes the hashed payload of the fingerprint, and the
fingerprint is always 64 lowercase hex characters, so every successful
`ensure_thumbnail` result lies at `<cache_root>/<first-2-hex>/<64-hex>.jpg`. -/
theorem C7_fingerprint_payload_and_layout :
    (∀ (rel_path : String) (size quality s1 m1 s2 m2 : Int),
        s1 ≠ s2 ∨ m1 ≠ m2 →
        cache_key_payload rel_path size quality s1 m1
          ≠ cache_key_payload rel_path size quality s2 m2)
    ∧ (∀ (rel_path : String) (size quality source_size source_mtime_ns : Int),
        (build_cache_key rel_path size quality source_size source_mtime_ns).length = 64
        ∧ ∀ c ∈ (build_cache_key rel_path size quality source_size source_mtime_ns).toList,
            c ∈ "0123456789abcdef".toList)
    ∧ (∀ (svc : ThumbnailService) (r : ThumbRequest) (pth : String),
        ensure_thumbnail svc r = .ok pth →
        ∃ st_size st_mtime_ns,
          r.statResult = some (st_size, st_mtime_ns)
          ∧ pth = svc.cache_dir ++ "/"
              ++ String.mk ((build_cache_key r.rel_path (r.sizeArg.getD svc.default_size)
                    svc.quality st_size st_mtime_ns).toList.take 2)
              ++ "/"
              ++ build_cache_key r.rel_path (r.sizeArg.getD svc.default_size)
                    svc.quality st_size st_mtime_ns
              ++ ".jpg") := by
  refine ⟨?_, ?_, ?_⟩
  · intro rel_path size quality s1 m1 s2 m2 hne h
    unfold cache_key_payload at h
    have h2 : (rel_path.toList ++ ('|' :: intRepr size) ++ ('|' :: intRepr quality))
          ++ '|' :: (intRepr s1 ++ '|' :: intRepr m1)
        = (rel_path.toList ++ ('|' :: intRepr size) ++ ('|' :: intRepr quality))
          ++ '|' :: (intRepr s2 ++ '|' :: intRepr m2) := by
      simpa [List.append_assoc] using h
    have h3 := List.append_cancel_left h2
    simp only [List.cons.injEq, true_and] at h3
    obtain ⟨hs, hm⟩ :=
      append_bar_inj _ _ _ _ (bar_not_mem_intRepr s1) (bar_not_mem_intRepr s2) h3
    rcases hne with hne | hne
    · exact hne (intRepr_inj _ _ hs)
    · exact hne (intRepr_inj _ _ hm)
  · intro rel_path size quality source_size source_mtime_ns
    exact ⟨sha256Hex_length _, mem_sha256Hex_hex _⟩
  · intro svc r pth hok
    obtain ⟨rel, sz, st, ce, mk, pl⟩ := r
    rw [ensure_thumbnail] at hok
    by_cases ht : sz.getD svc.default_size < 1
    · rw [if_pos ht] at hok; cases hok
    · rw [if_neg ht] at hok
      rcases st with _ | ⟨ss, mt⟩
      · cases hok
      · refine ⟨ss, mt, rfl, ?_⟩
        simp only [thumbCachePath] at hok
        cases ce <;> cases mk <;> cases pl <;> simp_all

/-- Witness for C7: two stat results differing in size give different payloads. -/
theorem C7_fingerprint_payload_and_layout_witness :
    cache_key_payload "a.jpg" 360 82 100 5 ≠ cache_key_payload "a.jpg" 360 82 101 5 :=
  C7_fingerprint_payload_and_layout.1 "a.jpg" 360 82 100 5 101 5 (Or.inl (by decide))

/-! ## Snapshot builder lemmas for C2, C3, C9 -/

theorem pyMax_mem {α : Type} (lt : α → α → Bool) (x : α) (xs : List α) :
    pyMax lt x xs ∈ x :: xs := by
  induction xs generalizing x with
  | nil => simp [pyMax]
  | cons y ys ih =>
      have hstep : pyMax lt x (y :: ys) = pyMax lt (if lt x y then y else x) ys := rfl
      rw [hstep]
      rcases List.mem_cons.mp (ih (if lt x y then y else x)) with h | h
      · rw [h]
        split <;> simp
      · exact List.mem_cons_of_mem _ (List.mem_cons_of_mem _ h)

theorem pyMax_key_le {α κ : Type} [LinearOrder κ] (key : α → κ) (lt : α → α → Bool)
    (hlt : ∀ a b, lt a b = true ↔ key a < key b) (x : α) (xs : List α) :
    ∀ y ∈ x :: xs, key y ≤ key (pyMax lt x xs) := by
  induction xs generalizing x with
  | nil =>
      intro y hy
      simp only [List.mem_singleton] at hy
      rw [hy]
      exact le_refl _
  | cons z zs ih =>
      intro y hy
      have hstep : pyMax lt x (z :: zs) = pyMax lt (if lt x z then z else x) zs := rfl
      rw [hstep]
      have hx : key x ≤ key (if lt x z then z else x) := by
        split
        · next h => exact le_of_lt ((hlt x z).mp h)
        · exact le_refl _
      have hz : key z ≤ key (if lt x z then z else x) := by
        split
        · exact le_refl _
        · next h => exact not_lt.mp (fun hk => h ((hlt x z).mpr hk))
      have hself : key (if lt x z then z else x)
          ≤ key (pyMax lt (if lt x z then z else x) zs) :=
        ih (if lt x z then z else x) _ (by simp)
      rcases List.mem_cons.mp hy with rfl | hy2
      · exact le_trans hx hself
      rcases List.mem_cons.mp hy2 with rfl | hy3
      · exact le_trans hz hself
      · exact ih (if lt x z then z else x) _ (List.mem_cons_of_mem _ hy3)

theorem charListLt_iff : ∀ (as bs : List Char), charListLt as bs = true ↔ as < bs := by
  intro as
  induction as with
  | nil =>
      intro bs
      cases bs with
      | nil =>
          simp only [charListLt, Bool.false_eq_true, false_iff]
          exact fun h => nomatch h
      | cons b bs =>
          simp only [charListLt, true_iff]
          exact List.Lex.nil
  | cons a as ih =>
      intro bs
      cases bs with
      | nil =>
          simp only [charListLt, Bool.false_eq_true, false_iff]
          exact fun h => nomatch h
      | cons b bs =>
          simp only [charListLt, Bool.or_eq_true, Bool.and_eq_true, decide_eq_true_eq, ih]
          constructor
          · rintro (hab | ⟨heq, hrec⟩)
            · exact List.Lex.rel hab
            · subst heq
              exact List.Lex.cons hrec
          · intro h
            cases h with
            | cons h3 => exact Or.inr ⟨rfl, h3⟩
            | rel h1 => exact Or.inl h1

theorem strLt_iff (a b : String) : strLt a b = true ↔ a < b := by
  rw [strLt, charListLt_iff, String.lt_iff_toList_lt]

theorem coverLt_iff (a b : ScanEntry) :
    coverLt a b = true ↔
      (toLex (a.2.name, a.2.rel_path) : String ×ₗ String)
        < toLex (b.2.name, b.2.rel_path) := by
  rw [Prod.Lex.lt_iff]
  simp only [coverLt, Bool.or_eq_true, Bool.and_eq_true, decide_eq_true_eq, strLt_iff]

theorem mtimeLt_iff (a b : ScanEntry) : mtimeLt a b = true ↔ a.1 < b.1 := by
  simp [mtimeLt]

theorem insertEntry_mem_entries :
    ∀ (gs : List (String × List ScanEntry)) (k : String) (e : ScanEntry)
      (p : String × List ScanEntry) (x : ScanEntry),
      p ∈ insertEntry gs k e → x ∈ p.2 →
      (x = e ∧ p.1 = k) ∨ ∃ q ∈ gs, q.1 = p.1 ∧ x ∈ q.2 := by
  intro gs
  induction gs with
  | nil =>
      intro k e p x hp hx
      simp only [insertEntry, List.mem_singleton] at hp
      subst hp
      simp only [List.mem_singleton] at hx
      exact Or.inl ⟨hx, rfl⟩
  | cons g rest ih =>
      intro k e p x hp hx
      obtain ⟨k0, es⟩ := g
      rw [insertEntry] at hp
      by_cases hk : k0 = k
      · rw [if_pos hk] at hp
        rcases List.mem_cons.mp hp with rfl | hp2
        · rcases List.mem_append.mp hx with hx1 | hx2
          · exact Or.inr ⟨(k0, es), by simp, rfl, hx1⟩
          · simp only [List.mem_singleton] at hx2
            exact Or.inl ⟨hx2, hk⟩
        · exact Or.inr ⟨p, List.mem_cons_of_mem _ hp2, rfl, hx⟩
      · rw [if_neg hk] at hp
        rcases List.mem_cons.mp hp with rfl | hp2
        · exact Or.inr ⟨(k0, es), by simp, rfl, hx⟩
        · rcases ih k e p x hp2 hx with h | ⟨q, hq, h1, h2⟩
          · exact Or.inl h
          · exact Or.inr ⟨q, List.mem_cons_of_mem _ hq, h1, h2⟩

theorem foldl_insertEntry_mem :
    ∀ (records : List ScanEntry) (gs : List (String × List ScanEntry))
      (p : String × List ScanEntry) (x : ScanEntry),
      p ∈ records.foldl (fun acc r => insertEntry acc (image_dir r.2.rel_path) r) gs →
      x ∈ p.2 →
      (image_dir x.2.rel_path = p.1 ∧ x ∈ records) ∨ ∃ q ∈ gs, q.1 = p.1 ∧ x ∈ q.2 := by
  intro records
  induction records with
  | nil =>
      intro gs p x hp hx
      exact Or.inr ⟨p, hp, rfl, hx⟩
  | cons r rs ih =>
      intro gs p x hp hx
      rw [List.foldl_cons] at hp
      rcases ih _ p x hp hx with ⟨h1, h2⟩ | ⟨q, hq, h1, h2⟩
      · exact Or.inl ⟨h1, List.mem_cons_of_mem _ h2⟩
      · rcases insertEntry_mem_entries gs _ r q x hq h2 with ⟨rfl, hk⟩ | ⟨q0, hq0, hq1, hq2⟩
        · exact Or.inl ⟨by rw [← h1, hk], by simp⟩
        · exact Or.inr ⟨q0, hq0, hq1.trans h1, hq2⟩

theorem groupByFolder_mem_entries (records : List ScanEntry)
    (p : String × List ScanEntry) (x : ScanEntry)
    (hp : p ∈ groupByFolder records) (hx : x ∈ p.2) :
    image_dir x.2.rel_path = p.1 ∧ x ∈ records := by
  rcases foldl_insertEntry_mem records [] p x hp hx with h | ⟨q, hq, _, _⟩
  · exact h
  · simp at hq

theorem insertEntry_keys (gs : List (String × List ScanEntry)) (k : String) (e : ScanEntry) :
    ((insertEntry gs k e).map Prod.fst = gs.map Prod.fst ∧ k ∈ gs.map Prod.fst)
    ∨ ((insertEntry gs k e).map Prod.fst = gs.map Prod.fst ++ [k]
        ∧ k ∉ gs.map Prod.fst) := by
  induction gs with
  | nil => right; simp [insertEntry]
  | cons g rest ih =>
      obtain ⟨k0, es⟩ := g
      by_cases hk : k0 = k
      · left
        constructor
        · simp [insertEntry, hk]
        · simp [hk]
      · rcases ih with ⟨h1, h2⟩ | ⟨h1, h2⟩
        · left
          constructor
          · simp [insertEntry, hk, h1]
          · simp [h2]
        · right
          constructor
          · simp [insertEntry, hk, h1]
          · simp only [List.map_cons, List.mem_cons]
            rintro (h | h)
            · exact hk h.symm
            · exact h2 h

theorem foldl_insertEntry_keys_nodup :
    ∀ (records : List ScanEntry) (gs : List (String × List ScanEntry)),
      (gs.map Prod.fst).Nodup →
      (((records.foldl (fun acc r => insertEntry acc (image_dir r.2.rel_path) r) gs).map
          Prod.fst).Nodup) := by
  intro records
  induction records with
  | nil => intro gs h; exact h
  | cons r rs ih =>
      intro gs h
      rw [List.foldl_cons]
      apply ih
      rcases insertEntry_keys gs (image_dir r.2.rel_path) r with ⟨h1, _⟩ | ⟨h1, h2⟩
      · rw [h1]; exact h
      · rw [h1]
        simp [List.nodup_append, h, h2]

theorem groupByFolder_keys_nodup (records : List ScanEntry) :
    ((groupByFolder records).map Prod.fst).Nodup :=
  foldl_insertEntry_keys_nodup records [] (by simp)

theorem insertEntry_entries_ne_nil (gs : List (String × List ScanEntry)) (k : String)
    (e : ScanEntry) (h : ∀ p ∈ gs, p.2 ≠ []) :
    ∀ p ∈ insertEntry gs k e, p.2 ≠ [] := by
  induction gs with
  | nil =>
      intro p hp
      simp only [insertEntry, List.mem_singleton] at hp
      subst hp
      simp
  | cons g rest ih =>
      intro p hp
      obtain ⟨k0, es⟩ := g
      rw [insertEntry] at hp
      by_cases hk : k0 = k
      · rw [if_pos hk] at hp
        rcases List.mem_cons.mp hp with rfl | hp2
        · simp
        · exact h p (List.mem_cons_of_mem _ hp2)
      · rw [if_neg hk] at hp
        rcases List.mem_cons.mp hp with rfl | hp2
        · exact h (k0, es) (by simp)
        · exact ih (fun q hq => h q (List.mem_cons_of_mem _ hq)) p hp2

theorem groupByFolder_entries_ne_nil (records : List ScanEntry) :
    ∀ p ∈ groupByFolder records, p.2 ≠ [] := by
  suffices h : ∀ (rs : List ScanEntry) (gs : List (String × List ScanEntry)),
      (∀ p ∈ gs, p.2 ≠ []) →
      ∀ p ∈ rs.foldl (fun acc r => insertEntry acc (image_dir r.2.rel_path) r) gs,
        p.2 ≠ [] by
    exact h records [] (by simp)
  intro rs
  induction rs with
  | nil => intro gs h p hp; exact h p hp
  | cons r rest ih =>
      intro gs h p hp
      rw [List.foldl_cons] at hp
      exact ih _ (insertEntry_entries_ne_nil gs _ r h) p hp

theorem lookup_map_of_nodup {β γ : Type} (gs : List (String × β)) (f : β → γ)
    (k : String) (es : β) (hn : (gs.map Prod.fst).Nodup) (h : (k, es) ∈ gs) :
    (gs.map (fun g => (g.1, f g.2))).lookup k = some (f es) := by
  induction gs with
  | nil => simp at h
  | cons g rest ih =>
      obtain ⟨k0, b0⟩ := g
      simp only [List.map_cons] at hn ⊢
      rw [List.nodup_cons] at hn
      by_cases hk : k = k0
      · have hes : es = b0 := by
          rcases List.mem_cons.mp h with heq | htail
          · exact (Prod.mk.injEq .. ▸ heq).2
          · exact absurd (hk ▸ List.mem_map.mpr ⟨(k, es), htail, rfl⟩) hn.1
        rw [List.lookup, show (k == k0) = true by simp [hk], hes]
      · have htail : (k, es) ∈ rest := by
          rcases List.mem_cons.mp h with heq | htail
          · exact absurd (congrArg Prod.fst heq) hk
          · exact htail
        rw [List.lookup, show (k == k0) = false by simp [hk]]
        exact ih hn.2 htail

theorem mem_snapshotFolderList (records : List ScanEntry) (p : ℚ × GalleryFolderCover) :
    p ∈ snapshotFolderList records ↔
      ∃ k e rest, (k, e :: rest) ∈ groupByFolder records ∧ p = folderEntry k e rest := by
  rw [snapshotFolderList, List.mem_filterMap]
  constructor
  · rintro ⟨⟨k, es⟩, hg, hf⟩
    cases es with
    | nil => simp at hf
    | cons e rest =>
        simp only [Option.some.injEq] at hf
        exact ⟨k, e, rest, hg, hf.symm⟩
  · rintro ⟨k, e, rest, hg, rfl⟩
    exact ⟨(k, e :: rest), hg, rfl⟩

theorem filterMap_folder_rel_dirs :
    ∀ (gs : List (String × List ScanEntry)), (∀ p ∈ gs, p.2 ≠ []) →
      ((gs.filterMap (fun g => match g.2 with
          | [] => none
          | e :: rest => some (folderEntry g.1 e rest))).map (fun p => p.2.rel_dir))
        = gs.map Prod.fst := by
  intro gs
  induction gs with
  | nil => intro _; rfl
  | cons g rest ih =>
      intro h
      obtain ⟨k, es⟩ := g
      cases es with
      | nil => exact absurd rfl (h (k, []) (by simp))
      | cons e tail =>
          have hstep : ((k, e :: tail) :: rest).filterMap
              (fun g => match g.2 with
                | [] => none
                | e :: rest => some (folderEntry g.1 e rest))
              = folderEntry k e tail :: rest.filterMap (fun g => match g.2 with
                | [] => none
                | e :: rest => some (folderEntry g.1 e rest)) := by
            rw [List.filterMap_cons]
          rw [hstep, List.map_cons, ih (fun q hq => h q (List.mem_cons_of_mem _ hq))]
          rfl

instance : IsTrans (ℚ × GalleryFolderCover) folderSortRel := by
  constructor
  intro a b c hab hbc
  rcases hab with h1 | ⟨h1, h2⟩ <;> rcases hbc with h3 | ⟨h3, h4⟩
  · exact Or.inl (h1.trans h3)
  · exact Or.inl (by rw [← h3]; exact h1)
  · exact Or.inl (by rw [h1]; exact h3)
  · exact Or.inr ⟨h1.trans h3, h2.trans h4⟩

instance : IsTotal (ℚ × GalleryFolderCover) folderSortRel := by
  constructor
  intro a b
  rcases lt_trichotomy (-a.1) (-b.1) with h | h | h
  · exact Or.inl (Or.inl h)
  · rcases le_total a.2.rel_dir b.2.rel_dir with h2 | h2
    · exact Or.inl (Or.inr ⟨h, h2⟩)
    · exact Or.inr (Or.inr ⟨h.symm, h2⟩)
  · exact Or.inr (Or.inl h)

theorem folderEntry_rel_dir (k : String) (e : ScanEntry) (rest : List ScanEntry) :
    (folderEntry k e rest).2.rel_dir = k := rfl

theorem mem_folders_ordered (records : List ScanEntry) (f : GalleryFolderCover) :
    f ∈ (build_snapshot records).folders_ordered ↔
      ∃ k e rest, (k, e :: rest) ∈ groupByFolder records ∧ f = (folderEntry k e rest).2 := by
  rw [show (build_snapshot records).folders_ordered
      = (List.insertionSort folderSortRel (snapshotFolderList records)).map (fun p => p.2)
      from rfl]
  rw [List.mem_map]
  constructor
  · rintro ⟨p, hp, rfl⟩
    obtain ⟨k, e, rest, hg, rfl⟩ := (mem_snapshotFolderList records p).mp
      ((List.perm_insertionSort folderSortRel _).mem_iff.mp hp)
    exact ⟨k, e, rest, hg, rfl⟩
  · rintro ⟨k, e, rest, hg, rfl⟩
    exact ⟨folderEntry k e rest,
      (List.perm_insertionSort folderSortRel _).mem_iff.mpr
        ((mem_snapshotFolderList records _).mpr ⟨k, e, rest, hg, rfl⟩), rfl⟩

theorem images_by_folder_lookup (records : List ScanEntry) (k : String) (e : ScanEntry)
    (rest : List ScanEntry) (hg : (k, e :: rest) ∈ groupByFolder records) :
    ((build_snapshot records).images_by_folder).lookup k
      = some ((e :: rest).map (fun x => x.2)) := by
  rw [show (build_snapshot records).images_by_folder
      = (groupByFolder records).map (fun g => (g.1, g.2.map (fun x => x.2))) from rfl]
  exact lookup_map_of_nodup _ _ k (e :: rest) (groupByFolder_keys_nodup records) hg

/-- C2: in every snapshot built from scanned records, the folder list is
strictly descending by latest mtime, and folders with equal latest mtime appear
in ascending order of relative directory path. The hypothesis records that the
scanner pairs each image with its own mtime. -/
theorem C2_folder_ordering (records : List ScanEntry)
    (hcoh : ∀ e ∈ records, e.1 = e.2.mtime) :
    (build_snapshot records).folders_ordered.Pairwise
      (fun a b => b.latest_mtime < a.latest_mtime
        ∨ (a.latest_mtime = b.latest_mtime ∧ a.rel_dir < b.rel_dir)) := by
  rw [show (build_snapshot records).folders_ordered
      = (List.insertionSort folderSortRel (snapshotFolderList records)).map (fun p => p.2)
      from rfl]
  rw [List.pairwise_map]
  have hsorted : (List.insertionSort folderSortRel (snapshotFolderList records)).Pairwise
      folderSortRel :=
    List.sorted_insertionSort folderSortRel (snapshotFolderList records)
  have hperm := List.perm_insertionSort folderSortRel (snapshotFolderList records)
  have hkeys : ((snapshotFolderList records).map (fun p => p.2.rel_dir)).Nodup := by
    rw [snapshotFolderList,
      filterMap_folder_rel_dirs (groupByFolder records) (groupByFolder_entries_ne_nil records)]
    exact groupByFolder_keys_nodup records
  have hnodup : ((List.insertionSort folderSortRel (snapshotFolderList records)).map
      (fun p => p.2.rel_dir)).Nodup :=
    ((hperm.map (fun p => p.2.rel_dir)).nodup_iff).mpr hkeys
  have hnodup2 : (List.insertionSort folderSortRel (snapshotFolderList records)).Pairwise
      (fun p q => p.2.rel_dir ≠ q.2.rel_dir) :=
    List.pairwise_map.mp hnodup
  have hcohs : ∀ p ∈ List.insertionSort folderSortRel (snapshotFolderList records),
      p.1 = p.2.latest_mtime := by
    intro p hp
    obtain ⟨k, e, rest, hg, rfl⟩ :=
      (mem_snapshotFolderList records p).mp (hperm.mem_iff.mp hp)
    have hrec : pyMax mtimeLt e rest ∈ records :=
      (groupByFolder_mem_entries records (k, e :: rest) _ hg (pyMax_mem _ _ _)).2
    exact hcoh _ hrec
  refine List.Pairwise.imp_of_mem ?_ (hsorted.and hnodup2)
  intro a b ha hb hr
  obtain ⟨hr, hne2⟩ := hr
  have ha2 := hcohs a ha
  have hb2 := hcohs b hb
  rcases hr with h1 | ⟨h1, h2⟩
  · left
    rw [← ha2, ← hb2]
    exact neg_lt_neg_iff.mp h1
  · right
    constructor
    · rw [← ha2, ← hb2]
      exact neg_inj.mp h1
    · exact lt_of_le_of_ne h2 hne2

/-- The two-image folder of the cover tie-break example. -/
def exampleImageA : GalleryImage :=
  { id := "d/a.jpg", name := "a.jpg", rel_path := "d/a.jpg", mtime := 1, size := 1,
    url := "", thumb_url := "" }

def exampleImageB : GalleryImage :=
  { id := "d/b.jpg", name := "b.jpg", rel_path := "d/b.jpg", mtime := 2, size := 1,
    url := "", thumb_url := "" }

/-- Witness for C2 at a concrete record list. -/
theorem C2_folder_ordering_witness :
    (build_snapshot [(1, exampleImageA), (2, exampleImageB)]).folders_ordered.Pairwise
      (fun a b => b.latest_mtime < a.latest_mtime
        ∨ (a.latest_mtime = b.latest_mtime ∧ a.rel_dir < b.rel_dir)) :=
  C2_folder_ordering [(1, exampleImageA), (2, exampleImageB)] (by decide)

/-- C3: the cover of every folder of a built snapshot is the image whose
`(name, rel_path)` pair is lexicographically greatest among the folder's
images — hence independent of scan order — and for the folder containing
`("b.jpg","d/b.jpg")` and `("a.jpg","d/a.jpg")` the cover is `d/b.jpg`
whichever order the scanner produced them in. -/
theorem C3_cover_lex_greatest :
    (∀ (records : List ScanEntry) (f : GalleryFolderCover),
        f ∈ (build_snapshot records).folders_ordered →
        ∃ imgs, ((build_snapshot records).images_by_folder).lookup f.rel_dir = some imgs
          ∧ f.cover ∈ imgs
          ∧ ∀ i ∈ imgs,
              (toLex (i.name, i.rel_path) : String ×ₗ String)
                ≤ toLex (f.cover.name, f.cover.rel_path))
    ∧ (build_snapshot [(1, exampleImageA), (2, exampleImageB)]).folders_ordered.map
        (fun f => f.cover.rel_path) = ["d/b.jpg"]
    ∧ (build_snapshot [(2, exampleImageB), (1, exampleImageA)]).folders_ordered.map
        (fun f => f.cover.rel_path) = ["d/b.jpg"] := by
  refine ⟨?_, rfl, rfl⟩
  intro records f hf
  obtain ⟨k, e, rest, hg, rfl⟩ := (mem_folders_ordered records f).mp hf
  rw [folderEntry_rel_dir, images_by_folder_lookup records k e rest hg]
  refine ⟨_, rfl, ?_, ?_⟩
  · exact List.mem_map.mpr ⟨pyMax coverLt e rest, pyMax_mem _ _ _, rfl⟩
  · intro i hi
    obtain ⟨y, hy, rfl⟩ := List.mem_map.mp hi
    exact pyMax_key_le
      (fun x : ScanEntry => (toLex (x.2.name, x.2.rel_path) : String ×ₗ String))
      coverLt coverLt_iff e rest y hy

/-- Witness for C3 at a concrete folder of a concrete snapshot. -/
theorem C3_cover_lex_greatest_witness :
    ∃ imgs,
      ((build_snapshot [(1, exampleImageA), (2, exampleImageB)]).images_by_folder).lookup
          (folderEntry "d" (1, exampleImageA) [(2, exampleImageB)]).2.rel_dir = some imgs
        ∧ (folderEntry "d" (1, exampleImageA) [(2, exampleImageB)]).2.cover ∈ imgs
        ∧ ∀ i ∈ imgs,
            (toLex (i.name, i.rel_path) : String ×ₗ String)
              ≤ toLex ((folderEntry "d" (1, exampleImageA) [(2, exampleImageB)]).2.cover.name,
                  (folderEntry "d" (1, exampleImageA) [(2, exampleImageB)]).2.cover.rel_path) :=
  C3_cover_lex_greatest.1 [(1, exampleImageA), (2, exampleImageB)]
    (folderEntry "d" (1, exampleImageA) [(2, exampleImageB)]).2 (by decide)

/-- C9: every folder cover of a built snapshot has `latest_mtime` equal to the
maximum mtime among the folder's images, and the cover's relative path is a
member of the folder's image list in the folder→images map. -/
theorem C9_latest_mtime_max_and_cover_member (records : List ScanEntry)
    (hcoh : ∀ e ∈ records, e.1 = e.2.mtime) :
    ∀ f ∈ (build_snapshot records).folders_ordered,
      ∃ imgs, ((build_snapshot records).images_by_folder).lookup f.rel_dir = some imgs
        ∧ f.latest_mtime ∈ imgs.map (fun i => i.mtime)
        ∧ (∀ i ∈ imgs, i.mtime ≤ f.latest_mtime)
        ∧ f.cover.rel_path ∈ imgs.map (fun i => i.rel_path) := by
  intro f hf
  obtain ⟨k, e, rest, hg, rfl⟩ := (mem_folders_ordered records f).mp hf
  rw [folderEntry_rel_dir, images_by_folder_lookup records k e rest hg]
  refine ⟨_, rfl, ?_, ?_, ?_⟩
  · have h1 : (pyMax mtimeLt e rest).2 ∈ (e :: rest).map (fun x => x.2) :=
      List.mem_map.mpr ⟨pyMax mtimeLt e rest, pyMax_mem _ _ _, rfl⟩
    exact List.mem_map.mpr ⟨_, h1, rfl⟩
  · intro i hi
    obtain ⟨y, hy, rfl⟩ := List.mem_map.mp hi
    have hle : y.1 ≤ (pyMax mtimeLt e rest).1 :=
      pyMax_key_le (fun x : ScanEntry => x.1) mtimeLt mtimeLt_iff e rest y hy
    have hymem : y ∈ records :=
      (groupByFolder_mem_entries records (k, e :: rest) y hg hy).2
    have hmmem : pyMax mtimeLt e rest ∈ records :=
      (groupByFolder_mem_entries records (k, e :: rest) _ hg (pyMax_mem _ _ _)).2
    calc y.2.mtime = y.1 := (hcoh y hymem).symm
      _ ≤ (pyMax mtimeLt e rest).1 := hle
      _ = (pyMax mtimeLt e rest).2.mtime := hcoh _ hmmem
  · have h1 : (pyMax coverLt e rest).2 ∈ (e :: rest).map (fun x => x.2) :=
      List.mem_map.mpr ⟨pyMax coverLt e rest, pyMax_mem _ _ _, rfl⟩
    exact List.mem_map.mpr ⟨_, h1, rfl⟩

/-- Witness for C9 at a concrete folder of a concrete snapshot. -/
theorem C9_latest_mtime_max_and_cover_member_witness :
    ∃ imgs,
      ((build_snapshot [(1, exampleImageA), (2, exampleImageB)]).images_by_folder).lookup
          (folderEntry "d" (1, exampleImageA) [(2, exampleImageB)]).2.rel_dir = some imgs
        ∧ (folderEntry "d" (1, exampleImageA) [(2, exampleImageB)]).2.latest_mtime
            ∈ imgs.map (fun i => i.mtime)
        ∧ (∀ i ∈ imgs,
            i.mtime ≤ (folderEntry "d" (1, exampleImageA) [(2, exampleImageB)]).2.latest_mtime)
        ∧ (folderEntry "d" (1, exampleImageA) [(2, exampleImageB)]).2.cover.rel_path
            ∈ imgs.map (fun i => i.rel_path) :=
  C9_latest_mtime_max_and_cover_member [(1, exampleImageA), (2, exampleImageB)]
    (by decide)
    (folderEntry "d" (1, exampleImageA) [(2, exampleImageB)]).2 (by decide)

end LanGallery
